import Mathlib

/-!
Shallow embedding of `project_check.py` (repository GrantAI).

The script runs three checks: a lint runner (`check_imports`), a link
scanner (`check_urls`) and a dependency checker (`check_dependencies`),
then prints a completion banner.  Strings are modelled as `List Char`;
the network, the module loader and the lint subprocess are abstract
environments passed as parameters.  Console behaviour is modelled as the
list of arguments of the `print` calls the script performs, in order.
-/

namespace GrantAI

abbrev Str := List Char

/-- Python `pat in s` and `s.startswith(pat)` are modelled by `containsL`
and `isPre` on character lists. `isPre pat s` decides whether `pat` is an
initial segment of `s`. -/
def isPre : Str → Str → Bool
  | [], _ => true
  | _ :: _, [] => false
  | p :: ps, c :: cs => p == c && isPre ps cs

/-- Substring occurrence test: `containsL pat s` decides whether `pat`
occurs contiguously somewhere in `s` (Python `pat in s`). -/
def containsL (pat : Str) : Str → Bool
  | [] => isPre pat []
  | c :: cs => isPre pat (c :: cs) || containsL pat cs

/-- Python `s.endswith(ext)`. -/
def endsL (s ext : Str) : Bool := isPre ext.reverse s.reverse

/-- Remove leading whitespace characters. -/
def dropLeadWs : Str → Str
  | [] => []
  | c :: cs => if c.isWhitespace then dropLeadWs cs else c :: cs

/-- Python `s.strip()`: drop leading and trailing whitespace. -/
def stripL (s : Str) : Str := (dropLeadWs ((dropLeadWs s).reverse)).reverse

/-- Helper for `words`: accumulates the current word (reversed) while
scanning. -/
def wordsAux : Str → Str → List Str
  | [], acc => if acc = [] then [] else [acc.reverse]
  | c :: cs, acc =>
      if c.isWhitespace then
        if acc = [] then wordsAux cs [] else acc.reverse :: wordsAux cs []
      else wordsAux cs (c :: acc)

/-- Python `s.split()` with no argument: split on runs of whitespace,
discarding empty pieces. -/
def words (s : Str) : List Str := wordsAux s []

/-- Python `s.split(sep)[0]` for a non-empty separator: the text before
the first occurrence of `sep` (the whole string when `sep` does not
occur). -/
def beforeSep (sep : Str) : Str → Str
  | [] => []
  | c :: cs => if isPre sep (c :: cs) then [] else c :: beforeSep sep cs

/-- Concatenation of the images of a list-valued function (Python's
nested list comprehensions / loops that emit several items per element). -/
def catMap (g : α → List β) : List α → List β
  | [] => []
  | x :: xs => g x ++ catMap g xs

/-- First two characters of a line, used to tell the disjoint families of
console lines apart. -/
def fstTwo : Str → Option (Char × Char)
  | a :: b :: _ => some (a, b)
  | _ => none

def httpPat : Str := "http".toList

def sepEq : Str := "==".toList

/-- Extension allow-list from line 19 of the source:
`f.endswith((".py", ".md", ".html", ".txt"))`. -/
def allowListed (name : Str) : Bool :=
  endsL name ".py".toList || endsL name ".md".toList ||
    endsL name ".html".toList || endsL name ".txt".toList

/-- One HTTP request as issued by the script (`requests.head(url, timeout=5)`). -/
structure Request where
  method : Str
  url : Str
  timeout : Nat
deriving DecidableEq

/-- Outcome of one network probe: a response with a status code, or a
raised exception carrying a message. -/
inductive ProbeOutcome where
  | ok (code : Nat)
  | exn (msg : Str)
deriving DecidableEq

/-- The network environment: what `requests.head` does for each request. -/
abbrev Net := Request → ProbeOutcome

/-- The request built on line 26: a HEAD request with timeout 5. -/
def headReq (u : Str) : Request := { method := "HEAD".toList, url := u, timeout := 5 }

def badLinkLine (u : Str) (c : Nat) : Str :=
  "[BAD LINK] ".toList ++ u ++ " -> ".toList ++ (Nat.repr c).toList

def errorLine (u m : Str) : Str := "[ERROR] ".toList ++ u ++ " -> ".toList ++ m

def missingLine (p : Str) : Str := "[MISSING] ".toList ++ p

def startBanner : Str := "Running full project check...\n".toList

def importsHeader : Str := "Checking imports...".toList

def urlsHeader : Str := "\nChecking external links...".toList

def depsHeader : Str := "\nChecking dependencies...".toList

def doneBanner : Str :=
  "\n✅ Scan complete. Fix manually or auto-install missing dependencies.".toList

def lintErrLine (m : Str) : Str := "Error running flake8: ".toList ++ m

def fileNotFound : Str := "FileNotFoundError".toList

/-- A file seen by `os.walk`: its name and its decoded lines (the
`errors="ignore"` open already dropped undecodable bytes). -/
structure PyFile where
  name : Str
  content : List Str
deriving DecidableEq

abbrev FileSys := List PyFile

/-- Result of the link scanner: the requests it issued in order, the
lines it printed in order, and the names of the files it opened. -/
structure ScanResult where
  reqs : List Request
  out : List Str
  opened : List Str
deriving DecidableEq

def emptyScan : ScanResult := ⟨[], [], []⟩

def scanApp (a b : ScanResult) : ScanResult :=
  ⟨a.reqs ++ b.reqs, a.out ++ b.out, a.opened ++ b.opened⟩

/-- Lines 25-30 of the source: one probe of one candidate URL.  The
request is issued unconditionally; a status `>= 400` prints one
`[BAD LINK]` line, a raised exception prints one `[ERROR]` line, and a
status below 400 prints nothing. -/
def probeUrl (net : Net) (u : Str) : ScanResult :=
  { reqs := [headReq u]
    out :=
      match net (headReq u) with
      | ProbeOutcome.ok c => if 400 ≤ c then [badLinkLine u c] else []
      | ProbeOutcome.exn m => [errorLine u m]
    opened := [] }

/-- Lines 22-23 of the source: candidates of one line.  Only lines
containing the substring `"http"` are tokenized; the candidates are the
whitespace tokens starting with `"http"`. -/
def lineCandidates (line : Str) : List Str :=
  if containsL httpPat line then (words line).filter (fun w => isPre httpPat w) else []

def probeList (net : Net) : List Str → ScanResult
  | [] => emptyScan
  | u :: us => scanApp (probeUrl net u) (probeList net us)

def scanLine (net : Net) (line : Str) : ScanResult := probeList net (lineCandidates line)

def scanLines (net : Net) : List Str → ScanResult
  | [] => emptyScan
  | l :: ls => scanApp (scanLine net l) (scanLines net ls)

/-- Lines 19-21 of the source: a file is opened and read line by line
exactly when its name passes the extension allow-list. -/
def scanFile (net : Net) (f : PyFile) : ScanResult :=
  if allowListed f.name then
    scanApp ⟨[], [], [f.name]⟩ (scanLines net f.content)
  else emptyScan

def walk (net : Net) : FileSys → ScanResult
  | [] => emptyScan
  | f :: rest => scanApp (scanFile net f) (walk net rest)

/-- Lines 15-30 of the source: `check_urls`.  Prints its header, then
walks the tree. -/
def check_urls (net : Net) (fs : FileSys) : ScanResult :=
  let r := walk net fs
  { reqs := r.reqs, out := urlsHeader :: r.out, opened := r.opened }

/-- Outcome of `importlib.import_module(pkg)`: success, an
`ImportError`, or any other exception (a module whose top level raises). -/
inductive ImportOutcome where
  | ok
  | importError
  | raise (e : Str)
deriving DecidableEq

abbrev ImportEnv := Str → ImportOutcome

/-- Result of the dependency checker: printed lines, the module names
passed to `importlib.import_module` in order, and the uncaught exception
if one terminated it. -/
structure DepResult where
  out : List Str
  attempts : List Str
  exn : Option Str
deriving DecidableEq

/-- Line 37 of the source: `pkg = line.strip().split("==")[0]`. -/
def pkgOf (line : Str) : Str := beforeSep sepEq (stripL line)

/-- Lines 36-43 of the source, body of the manifest loop for one line:
an empty `pkg` is skipped; otherwise the import is attempted and only
`ImportError` is caught (printing one `[MISSING]` line); any other
exception propagates. -/
def depLine (imp : ImportEnv) (line : Str) : DepResult :=
  if pkgOf line = [] then ⟨[], [], none⟩
  else
    match imp (pkgOf line) with
    | ImportOutcome.ok => ⟨[], [pkgOf line], none⟩
    | ImportOutcome.importError => ⟨[missingLine (pkgOf line)], [pkgOf line], none⟩
    | ImportOutcome.raise e => ⟨[], [pkgOf line], some e⟩

/-- The manifest loop: stops at the first uncaught exception, otherwise
processes every line. -/
def depLines (imp : ImportEnv) : List Str → DepResult
  | [] => ⟨[], [], none⟩
  | l :: ls =>
      match (depLine imp l).exn with
      | some e => ⟨(depLine imp l).out, (depLine imp l).attempts, some e⟩
      | none =>
          ⟨(depLine imp l).out ++ (depLines imp ls).out,
           (depLine imp l).attempts ++ (depLines imp ls).attempts,
           (depLines imp ls).exn⟩

/-- Lines 33-43 of the source: `check_dependencies`.  The header is
printed first; a missing manifest makes the `open` raise
`FileNotFoundError`, which nothing catches. -/
def check_dependencies (imp : ImportEnv) (manifest : Option (List Str)) : DepResult :=
  match manifest with
  | none => ⟨[depsHeader], [], some fileNotFound⟩
  | some lines =>
      ⟨depsHeader :: (depLines imp lines).out,
       (depLines imp lines).attempts,
       (depLines imp lines).exn⟩

/-- Outcome of `subprocess.run(["flake8", "."], check=False)`: a
completed process with some exit status, or a launch failure raising an
exception. -/
inductive LaunchOutcome where
  | ok (exitStatus : Nat)
  | fail (msg : Str)
deriving DecidableEq

/-- Lines 7-12 of the source: `check_imports`.  With `check=False` the
exit status is returned but discarded; a launch failure is caught and
printed. -/
def check_imports (lint : LaunchOutcome) : List Str :=
  importsHeader ::
    (match lint with
     | LaunchOutcome.ok _ => []
     | LaunchOutcome.fail m => [lintErrLine m])

/-- Result of one whole run: printed lines in order, and the uncaught
exception that terminated the process, if any. -/
structure RunResult where
  out : List Str
  exn : Option Str
deriving DecidableEq

/-- Lines 45-50 of the source: the entry point.  The three checks run in
a fixed order; an exception escaping `check_dependencies` skips the
completion banner and terminates the run. -/
def main (lint : LaunchOutcome) (net : Net) (fs : FileSys) (imp : ImportEnv)
    (manifest : Option (List Str)) : RunResult :=
  { out := startBanner :: (check_imports lint ++ ((check_urls net fs).out ++
      ((check_dependencies imp manifest).out ++
        (match (check_dependencies imp manifest).exn with
         | none => [doneBanner]
         | some _ => []))))
    exn := (check_dependencies imp manifest).exn }

/-- Process exit status: 0 on a normal finish, 1 when an uncaught
exception terminates the interpreter. -/
def exitCode (r : RunResult) : Nat :=
  match r.exn with
  | none => 0
  | some _ => 1

/-- Derived view: all URL candidates a file contributes (empty for a
file the scanner does not open). -/
def fileCandidates (f : PyFile) : List Str :=
  if allowListed f.name then catMap lineCandidates f.content else []

/-- Derived view: every URL candidate of the whole tree, in probe order. -/
def allCandidates (fs : FileSys) : List Str := catMap fileCandidates fs

/-- Derived view: the lines one probe prints. -/
def probeOut (net : Net) (u : Str) : List Str := (probeUrl net u).out

/-- The probe policy exactly as the specification words it: status at
least 400 prints one bad-link line, an exception prints one error line,
a status below 400 prints nothing. -/
def probePolicy (net : Net) (u : Str) : List Str :=
  match net (headReq u) with
  | ProbeOutcome.ok c => if 400 ≤ c then [badLinkLine u c] else []
  | ProbeOutcome.exn m => [errorLine u m]

/-- Derived view: the lines one file contributes to the scanner output. -/
def fileOut (net : Net) (f : PyFile) : List Str :=
  if allowListed f.name then
    catMap (fun l => catMap (probeOut net) (lineCandidates l)) f.content
  else []

/-- Concrete environments used to instantiate the theorems. -/
def lintOk : LaunchOutcome := LaunchOutcome.ok 0

def netOk : Net := fun _ => ProbeOutcome.ok 200

def netEx : Net := fun r =>
  if r.url = "http://a".toList then ProbeOutcome.ok 404
  else ProbeOutcome.exn "timeout".toList

def fsEx : FileSys := [⟨"doc.md".toList, ["see http://a http://b".toList]⟩]

def fsBin : FileSys := [⟨"img.png".toList, ["x http://c".toList]⟩]

def impOkEnv : ImportEnv := fun _ => ImportOutcome.ok

def impMissEnv : ImportEnv := fun p =>
  if p = "requests".toList then ImportOutcome.ok else ImportOutcome.importError

def impRaiseEnv : ImportEnv := fun _ => ImportOutcome.raise "boom".toList

def impRaiseEnv2 : ImportEnv := fun p =>
  if p = "otherpkg".toList then ImportOutcome.raise "RuntimeError: bad".toList
  else ImportOutcome.ok

def eqLine : Str := "==1.0".toList

def reqLine : Str := "requests==2.31.0".toList

def missLine : Str := "not_a_real_pkg_xyz".toList

def evilLine : Str := "evilpkg".toList

def evilLine2 : Str := "otherpkg".toList

/-! ## Helper lemmas -/

theorem catMap_append (g : α → List β) (xs ys : List α) :
    catMap g (xs ++ ys) = catMap g xs ++ catMap g ys := by
  induction xs with
  | nil => rfl
  | cons x xs ih => simp [catMap, ih, List.append_assoc]

theorem catMap_catMap (g : α → List β) (h : β → List γ) (xs : List α) :
    catMap h (catMap g xs) = catMap (fun x => catMap h (g x)) xs := by
  induction xs with
  | nil => rfl
  | cons x xs ih => simp [catMap, catMap_append, ih]

theorem mem_catMap {g : α → List β} {b : β} : ∀ {xs : List α},
    b ∈ catMap g xs ↔ ∃ a, a ∈ xs ∧ b ∈ g a := by
  intro xs
  induction xs with
  | nil => simp [catMap]
  | cons x xs ih =>
      simp only [catMap, List.mem_append, ih, List.mem_cons]
      constructor
      · rintro (hb | ⟨a, ha, hb⟩)
        · exact ⟨x, Or.inl rfl, hb⟩
        · exact ⟨a, Or.inr ha, hb⟩
      · rintro ⟨a, (rfl | ha), hb⟩
        · exact Or.inl hb
        · exact Or.inr ⟨a, ha, hb⟩

theorem isPre_append {pat s : Str} (h : isPre pat s = true) (t : Str) :
    isPre pat (s ++ t) = true := by
  induction pat generalizing s with
  | nil => simp [isPre]
  | cons p ps ih =>
      cases s with
      | nil => simp [isPre] at h
      | cons c cs =>
          simp only [isPre, Bool.and_eq_true, beq_iff_eq, List.cons_append] at h ⊢
          exact ⟨h.1, ih h.2⟩

theorem isPre_containsL {pat s : Str} (h : isPre pat s = true) :
    containsL pat s = true := by
  cases s with
  | nil => simpa [containsL] using h
  | cons c cs => simp [containsL, h]

theorem containsL_append_left {pat s : Str} (h : containsL pat s = true) (t : Str) :
    containsL pat (t ++ s) = true := by
  induction t with
  | nil => simpa using h
  | cons d t ih => simp [containsL, ih]

theorem wordsAux_split {t : Str} : ∀ (cs acc : Str), t ∈ wordsAux cs acc →
    ∃ a b, a ++ (t ++ b) = acc.reverse ++ cs := by
  intro cs
  induction cs with
  | nil =>
      intro acc h
      by_cases hacc : acc = []
      · simp [wordsAux, hacc] at h
      · rw [wordsAux, if_neg hacc] at h
        simp only [List.mem_singleton] at h
        subst h
        exact ⟨[], [], by simp⟩
  | cons c cs ih =>
      intro acc h
      by_cases hw : c.isWhitespace
      · rw [wordsAux, if_pos hw] at h
        by_cases hacc : acc = []
        · rw [if_pos hacc] at h
          obtain ⟨a, b, hab⟩ := ih [] h
          refine ⟨c :: a, b, ?_⟩
          simp only [List.reverse_nil, List.nil_append] at hab
          simp [hab, hacc]
        · rw [if_neg hacc] at h
          rcases List.mem_cons.mp h with h | h
          · subst h
            exact ⟨[], c :: cs, by simp⟩
          · obtain ⟨a, b, hab⟩ := ih [] h
            refine ⟨acc.reverse ++ c :: a, b, ?_⟩
            simp only [List.reverse_nil, List.nil_append] at hab
            simp [List.append_assoc, hab]
      · rw [wordsAux, if_neg hw] at h
        obtain ⟨a, b, hab⟩ := ih (c :: acc) h
        simp only [List.reverse_cons, List.append_assoc, List.singleton_append] at hab
        exact ⟨a, b, hab⟩

theorem words_split {t s : Str} (h : t ∈ words s) : ∃ a b, a ++ (t ++ b) = s := by
  have h' := wordsAux_split s [] h
  simpa using h'

theorem words_no_pat {pat s : Str} (h : containsL pat s = false) :
    ∀ t, t ∈ words s → isPre pat t = false := by
  intro t ht
  cases hp : isPre pat t with
  | false => rfl
  | true =>
      obtain ⟨a, b, hab⟩ := words_split ht
      have h1 := isPre_append hp b
      have h2 := isPre_containsL h1
      have h3 := containsL_append_left h2 a
      rw [hab] at h3
      rw [h] at h3
      exact absurd h3 (by decide)

theorem lineCandidates_eq (line : Str) :
    lineCandidates line = (words line).filter (fun w => isPre httpPat w) := by
  unfold lineCandidates
  cases h : containsL httpPat line with
  | true => simp
  | false =>
      simp only [Bool.false_eq_true, if_false]
      symm
      rw [List.filter_eq_nil_iff]
      intro a ha
      simp [words_no_pat h a ha]

theorem probeList_eq (net : Net) : ∀ us : List Str,
    probeList net us = ⟨us.map headReq, catMap (probeOut net) us, []⟩ := by
  intro us
  induction us with
  | nil => rfl
  | cons u us ih => simp [probeList, ih, scanApp, probeUrl, probeOut, catMap]

theorem scanLines_eq (net : Net) : ∀ ls : List Str,
    scanLines net ls = ⟨(catMap lineCandidates ls).map headReq,
      catMap (fun l => catMap (probeOut net) (lineCandidates l)) ls, []⟩ := by
  intro ls
  induction ls with
  | nil => rfl
  | cons l ls ih =>
      simp [scanLines, scanLine, probeList_eq, ih, scanApp, catMap, catMap_append,
        List.map_append]

theorem walk_eq (net : Net) : ∀ fs : FileSys,
    walk net fs = ⟨(allCandidates fs).map headReq, catMap (fileOut net) fs,
      (fs.filter (fun f => allowListed f.name)).map PyFile.name⟩ := by
  intro fs
  induction fs with
  | nil => rfl
  | cons f fs ih =>
      cases h : allowListed f.name with
      | true =>
          simp [walk, ih, scanFile, h, scanLines_eq net f.content, scanApp,
            allCandidates, catMap, catMap_append, fileCandidates, fileOut,
            List.map_append, List.filter_cons, emptyScan]
      | false =>
          simp [walk, ih, scanFile, h, scanApp, allCandidates, catMap,
            fileCandidates, fileOut, List.filter_cons, emptyScan]

theorem walk_append (net : Net) : ∀ xs ys : FileSys,
    walk net (xs ++ ys) = scanApp (walk net xs) (walk net ys) := by
  intro xs ys
  induction xs with
  | nil => rfl
  | cons f xs ih => simp [walk, ih, scanApp, List.append_assoc]

theorem probeOut_eq_policy (net : Net) (u : Str) : probeOut net u = probePolicy net u := rfl

theorem catMap_probeOut_file (net : Net) (f : PyFile) :
    catMap (probeOut net) (fileCandidates f) = fileOut net f := by
  unfold fileCandidates fileOut
  cases h : allowListed f.name with
  | true => simp [catMap_catMap]
  | false => simp [catMap]

theorem urls_out_eq (net : Net) (fs : FileSys) :
    (check_urls net fs).out = urlsHeader :: catMap (probePolicy net) (allCandidates fs) := by
  have h1 : catMap (probeOut net) (allCandidates fs) = catMap (fileOut net) fs := by
    unfold allCandidates
    rw [catMap_catMap]
    have h2 : (fun f => catMap (probeOut net) (fileCandidates f)) = fileOut net :=
      funext (catMap_probeOut_file net)
    rw [h2]
  have h3 : (fun u => probeOut net u) = probePolicy net := funext (probeOut_eq_policy net)
  simp only [check_urls, walk_eq net fs]
  rw [← h3, h1]

theorem urls_reqs_eq (net : Net) (fs : FileSys) :
    (check_urls net fs).reqs = (allCandidates fs).map headReq := by
  simp [check_urls, walk_eq net fs]

theorem urls_opened_eq (net : Net) (fs : FileSys) :
    (check_urls net fs).opened = (fs.filter (fun f => allowListed f.name)).map PyFile.name := by
  simp [check_urls, walk_eq net fs]

theorem mem_probeOut {net : Net} {u x : Str} (h : x ∈ probeOut net u) :
    (∃ c, x = badLinkLine u c) ∨ ∃ m, x = errorLine u m := by
  simp only [probeOut, probeUrl] at h
  split at h
  next c heq =>
    split at h
    next hc =>
      simp only [List.mem_singleton] at h
      exact Or.inl ⟨c, h⟩
    next hc => simp at h
  next m heq =>
    simp only [List.mem_singleton] at h
    exact Or.inr ⟨m, h⟩

theorem fstTwo_missing (p : Str) : fstTwo (missingLine p) = some ('[', 'M') := rfl

theorem fstTwo_bad (u : Str) (c : Nat) : fstTwo (badLinkLine u c) = some ('[', 'B') := rfl

theorem fstTwo_error (u m : Str) : fstTwo (errorLine u m) = some ('[', 'E') := rfl

theorem fstTwo_lintErr (m : Str) : fstTwo (lintErrLine m) = some ('E', 'r') := rfl

theorem mem_urls_fstTwo {net : Net} {fs : FileSys} {x : Str}
    (h : x ∈ (check_urls net fs).out) :
    fstTwo x = some ('\n', 'C') ∨ fstTwo x = some ('[', 'B') ∨
      fstTwo x = some ('[', 'E') := by
  rw [urls_out_eq] at h
  rcases List.mem_cons.mp h with h | h
  · subst h; exact Or.inl rfl
  · obtain ⟨u, _, hx⟩ := mem_catMap.mp h
    rcases mem_probeOut hx with ⟨c, rfl⟩ | ⟨m, rfl⟩
    · exact Or.inr (Or.inl rfl)
    · exact Or.inr (Or.inr rfl)

theorem mem_imports_fstTwo {lint : LaunchOutcome} {x : Str}
    (h : x ∈ check_imports lint) :
    fstTwo x = some ('C', 'h') ∨ fstTwo x = some ('E', 'r') := by
  unfold check_imports at h
  rcases List.mem_cons.mp h with h | h
  · subst h; exact Or.inl rfl
  · cases lint with
    | ok c => simp at h
    | fail m =>
        simp only [List.mem_singleton] at h
        subst h
        exact Or.inr rfl

theorem depLine_exn_raise {imp : ImportEnv} {l e : Str}
    (h : (depLine imp l).exn = some e) : imp (pkgOf l) = ImportOutcome.raise e := by
  unfold depLine at h
  by_cases hp : pkgOf l = []
  · rw [if_pos hp] at h; simp at h
  · rw [if_neg hp] at h
    cases himp : imp (pkgOf l) with
    | ok => rw [himp] at h; simp at h
    | importError => rw [himp] at h; simp at h
    | raise e' =>
        rw [himp] at h
        simp only [Option.some.injEq] at h
        rw [h]

theorem mem_depLine_out {imp : ImportEnv} {l x : Str}
    (h : x ∈ (depLine imp l).out) : ∃ p, x = missingLine p := by
  unfold depLine at h
  by_cases hp : pkgOf l = []
  · rw [if_pos hp] at h; simp at h
  · rw [if_neg hp] at h
    cases himp : imp (pkgOf l) with
    | ok => rw [himp] at h; simp at h
    | importError =>
        rw [himp] at h
        simp only [List.mem_singleton] at h
        exact ⟨pkgOf l, h⟩
    | raise e => rw [himp] at h; simp at h

theorem mem_depLines_out {imp : ImportEnv} {x : Str} : ∀ {ls : List Str},
    x ∈ (depLines imp ls).out → ∃ p, x = missingLine p := by
  intro ls
  induction ls with
  | nil => intro h; simp [depLines] at h
  | cons l ls ih =>
      intro h
      unfold depLines at h
      cases he : (depLine imp l).exn with
      | some e =>
          rw [he] at h
          exact mem_depLine_out h
      | none =>
          rw [he] at h
          rcases List.mem_append.mp h with h | h
          · exact mem_depLine_out h
          · exact ih h

theorem mem_deps_fstTwo {imp : ImportEnv} {man : Option (List Str)} {x : Str}
    (h : x ∈ (check_dependencies imp man).out) :
    fstTwo x = some ('\n', 'C') ∨ fstTwo x = some ('[', 'M') := by
  cases man with
  | none =>
      simp only [check_dependencies, List.mem_singleton] at h
      subst h
      exact Or.inl rfl
  | some lines =>
      simp only [check_dependencies] at h
      rcases List.mem_cons.mp h with h | h
      · subst h; exact Or.inl rfl
      · obtain ⟨p, rfl⟩ := mem_depLines_out h
        exact Or.inr rfl

theorem depLines_clean {imp : ImportEnv} : ∀ {ls : List Str},
    (∀ l ∈ ls, (depLine imp l).exn = none) →
    depLines imp ls = ⟨catMap (fun l => (depLine imp l).out) ls,
      catMap (fun l => (depLine imp l).attempts) ls, none⟩ := by
  intro ls
  induction ls with
  | nil => intro _; rfl
  | cons l ls ih =>
      intro h
      have h0 : (depLine imp l).exn = none := h l (List.mem_cons_self l ls)
      have h1 := ih (fun l' hl' => h l' (List.mem_cons_of_mem l hl'))
      unfold depLines
      rw [h0, h1]
      simp [catMap]

theorem depLines_stop {imp : ImportEnv} {e : Str} {l : Str} (post : List Str) :
    ∀ pre : List Str, (∀ l' ∈ pre, (depLine imp l').exn = none) →
    (depLine imp l).exn = some e →
    depLines imp (pre ++ l :: post) =
      ⟨catMap (fun l' => (depLine imp l').out) pre ++ (depLine imp l).out,
       catMap (fun l' => (depLine imp l').attempts) pre ++ (depLine imp l).attempts,
       some e⟩ := by
  intro pre
  induction pre with
  | nil =>
      intro _ hl
      show depLines imp (l :: post) = _
      unfold depLines
      rw [hl]
      simp [catMap]
  | cons p pre ih =>
      intro h hl
      have h0 : (depLine imp p).exn = none := h p (List.mem_cons_self p pre)
      have h1 := ih (fun l' hl' => h l' (List.mem_cons_of_mem p hl')) hl
      show depLines imp (p :: (pre ++ l :: post)) = _
      unfold depLines
      rw [h0, h1]
      simp [catMap, List.append_assoc]

theorem depLines_raise_src {imp : ImportEnv} {e : Str} : ∀ {ls : List Str},
    (depLines imp ls).exn = some e → ∃ p, imp p = ImportOutcome.raise e := by
  intro ls
  induction ls with
  | nil => intro h; simp [depLines] at h
  | cons l ls ih =>
      intro h
      unfold depLines at h
      cases he : (depLine imp l).exn with
      | some e' =>
          rw [he] at h
          simp only [Option.some.injEq] at h
          subst h
          exact ⟨pkgOf l, depLine_exn_raise he⟩
      | none =>
          rw [he] at h
          exact ih h

theorem beforeSep_all {sep : Str} : ∀ {s : Str},
    containsL sep s = false → beforeSep sep s = s := by
  intro s
  induction s with
  | nil => intro _; rfl
  | cons c cs ih =>
      intro h
      simp only [containsL, Bool.or_eq_false_iff] at h
      unfold beforeSep
      rw [if_neg (by simp [h.1]), ih h.2]

theorem beforeSep_nil_iff {sep s : Str} :
    beforeSep sep s = [] ↔ s = [] ∨ isPre sep s = true := by
  cases s with
  | nil => simp [beforeSep]
  | cons c cs =>
      simp only [beforeSep]
      by_cases h : isPre sep (c :: cs) = true
      · simp [h]
      · simp [h]

/-! ## Claim theorems -/

/-- Claim C1: every URL candidate the link scanner probes is issued exactly
one HEAD request with the fixed timeout 5 (no retry), and each probe prints
exactly one `[BAD LINK] url -> code` line when the status code is at least
400, exactly one `[ERROR] url -> message` line when the request raises, and
nothing when the status code is below 400. -/
theorem probe_policy_per_candidate (net : Net) (fs : FileSys) :
    (check_urls net fs).reqs
        = (allCandidates fs).map (fun u => { method := "HEAD".toList, url := u, timeout := 5 })
    ∧ (check_urls net fs).out
        = urlsHeader :: catMap (fun u =>
            match net (headReq u) with
            | ProbeOutcome.ok c => if 400 ≤ c then [badLinkLine u c] else []
            | ProbeOutcome.exn m => [errorLine u m]) (allCandidates fs) := by
  refine ⟨urls_reqs_eq net fs, ?_⟩
  rw [urls_out_eq]
  rfl

/-- Claim C3: inside the link scanner every probe failure is caught at the
innermost scope and rendered as a printed diagnostic line, so the scanner
never raises and completes its full traversal of the tree for every
network behaviour: its output is the header followed by the contribution
of every file in order, and every raising probe contributes its error
line. -/
theorem scanner_never_raises (net : Net) (fs : FileSys) :
    (check_urls net fs).out = urlsHeader :: catMap (fileOut net) fs
    ∧ (∀ u m, u ∈ allCandidates fs → net (headReq u) = ProbeOutcome.exn m →
        errorLine u m ∈ (check_urls net fs).out) := by
  constructor
  · simp [check_urls, walk_eq net fs]
  · intro u m hu hnet
    rw [urls_out_eq]
    refine List.mem_cons_of_mem _ (mem_catMap.mpr ⟨u, hu, ?_⟩)
    unfold probePolicy
    rw [hnet]
    simp

/-- Claim C3 witness: on a concrete tree where the probe of `http://b`
raises a timeout, the scanner prints its error line. -/
theorem scanner_never_raises_w :
    errorLine "http://b".toList "timeout".toList ∈ (check_urls netEx fsEx).out :=
  (scanner_never_raises netEx fsEx).2 "http://b".toList "timeout".toList
    (by decide) (by decide)

/-- Claim C5: the candidates of a line are exactly its whitespace-delimited
tokens with the four-character head "http"; a line without the substring
"http" yields zero candidates; and a line with exactly two such tokens
yields exactly two candidates, each issued its own request. -/
theorem candidate_extraction (net : Net) (line : Str) :
    lineCandidates line = (words line).filter (fun w => isPre httpPat w)
    ∧ (containsL httpPat line = false → lineCandidates line = [])
    ∧ (scanLine net line).reqs = (lineCandidates line).map headReq
    ∧ (((words line).filter (fun w => isPre httpPat w)).length = 2 →
        (scanLine net line).reqs.length = 2) := by
  have h1 := lineCandidates_eq line
  have h2 : (scanLine net line).reqs = (lineCandidates line).map headReq := by
    simp [scanLine, probeList_eq]
  refine ⟨h1, ?_, h2, ?_⟩
  · intro h
    unfold lineCandidates
    simp [h]
  · intro hlen
    rw [h2, h1, List.length_map, hlen]

/-- Claim C5 witness: a line with no "http" substring yields zero
candidates, and a line with exactly two "http"-headed tokens leads to
exactly two requests. -/
theorem candidate_extraction_w :
    lineCandidates "no links here".toList = []
    ∧ (scanLine netEx "see http://a and http://b".toList).reqs.length = 2 :=
  ⟨(candidate_extraction netEx "no links here".toList).2.1 (by decide),
   (candidate_extraction netEx "see http://a and http://b".toList).2.2.2 (by decide)⟩

/-- Claim C7: the scanner opens exactly the files whose name ends in one of
the allow-listed extensions, and a file with any other name is never opened
or read: its content has no influence at all on the scanner's result.  The
scanner's result consists only of console lines (and the issued requests);
the file system is never written. -/
theorem scanner_frame (net : Net) (fs : FileSys) (pre post : FileSys)
    (name : Str) (c₁ c₂ : List Str) :
    (check_urls net fs).opened = (fs.filter (fun f => allowListed f.name)).map PyFile.name
    ∧ (allowListed name = false →
        check_urls net (pre ++ { name := name, content := c₁ } :: post)
          = check_urls net (pre ++ { name := name, content := c₂ } :: post)) := by
  refine ⟨urls_opened_eq net fs, ?_⟩
  intro h
  have hf : ∀ c : List Str, scanFile net { name := name, content := c } = emptyScan := by
    intro c
    unfold scanFile
    simp [h]
  have hw : ∀ c : List Str, walk net (pre ++ { name := name, content := c } :: post)
      = scanApp (walk net pre) (scanApp (scanFile net { name := name, content := c })
          (walk net post)) := by
    intro c
    rw [walk_append]
    rfl
  simp only [check_urls, hw c₁, hw c₂, hf c₁, hf c₂]

/-- Claim C7 witness: the scanner's result on a tree containing a `.png`
file does not change when that file's content changes. -/
theorem scanner_frame_w :
    check_urls netOk [⟨"img.png".toList, ["x http://c".toList]⟩]
      = check_urls netOk [⟨"img.png".toList, []⟩] :=
  (scanner_frame netOk [] [] [] "img.png".toList ["x http://c".toList] []).2 (by decide)

/-- Claim C8: a failure to launch the lint subprocess is caught and printed
and the run continues with the remaining checks; the lint tool's exit
status is discarded, never inspected, and has no effect on the script's
output or its own exit code. -/
theorem lint_isolation (c c' : Nat) (m : Str) (net : Net) (fs : FileSys)
    (imp : ImportEnv) (man : Option (List Str)) :
    check_imports (LaunchOutcome.ok c) = check_imports (LaunchOutcome.ok c')
    ∧ check_imports (LaunchOutcome.fail m) = [importsHeader, lintErrLine m]
    ∧ (main (LaunchOutcome.fail m) net fs imp man).out
        = startBanner :: (check_imports (LaunchOutcome.fail m) ++
            ((check_urls net fs).out ++ ((check_dependencies imp man).out ++
              (match (check_dependencies imp man).exn with
               | none => [doneBanner]
               | some _ => []))))
    ∧ exitCode (main (LaunchOutcome.ok c) net fs imp man)
        = exitCode (main (LaunchOutcome.fail m) net fs imp man) :=
  ⟨rfl, rfl, rfl, rfl⟩

/-- Claim C10: the dependency checker recognizes only "==" as the version
pin separator, so a line with no "==" occurrence contributes its whole
stripped text verbatim as the module name; and a line whose stripped text
before the first "==" is empty — a blank line or a line beginning with
"==" — is skipped with no import attempt and no output. -/
theorem separator_policy (imp : ImportEnv) (line : Str) :
    (containsL sepEq (stripL line) = false → pkgOf line = stripL line)
    ∧ (pkgOf line = [] ↔ stripL line = [] ∨ isPre sepEq (stripL line) = true)
    ∧ (pkgOf line = [] → depLine imp line = ⟨[], [], none⟩)
    ∧ ((depLine imp line).attempts = [] ↔ pkgOf line = []) := by
  refine ⟨fun h => beforeSep_all h, beforeSep_nil_iff, ?_, ?_⟩
  · intro h
    unfold depLine
    rw [if_pos h]
  · constructor
    · intro h
      by_contra hp
      unfold depLine at h
      rw [if_neg hp] at h
      split at h <;> simp at h
    · intro h
      unfold depLine
      rw [if_pos h]

/-- Claim C10 witness: `name>=1.0` is imported verbatim (the whole stripped
line), and the line `==1.0` is skipped with no attempt and no output. -/
theorem separator_policy_w :
    pkgOf "name>=1.0".toList = stripL "name>=1.0".toList
    ∧ depLine impOkEnv eqLine = ⟨[], [], none⟩ :=
  ⟨(separator_policy impOkEnv "name>=1.0".toList).1 (by decide),
   (separator_policy impOkEnv eqLine).2.2.1 (by decide)⟩

/-- Claim C2 counterexample: with the manifest present (its open succeeds)
and a listed module whose import raises a non-ImportError exception, the
run still terminates with an uncaught exception and without the completion
banner — so a per-item failure other than the missing manifest can
escalate to process termination, contradicting the claim's final clause. -/
theorem manifest_only_escalation_cex :
    (main lintOk netOk [] impRaiseEnv (some [evilLine])).exn = some "boom".toList
    ∧ doneBanner ∉ (main lintOk netOk [] impRaiseEnv (some [evilLine])).out :=
  ⟨by decide, by decide⟩

/-- Claim C2 amended: a missing manifest raises an uncaught
FileNotFoundError terminating the run after any link-scanner output and
the dependency header, before any `[MISSING]` line and before the
completion banner; and apart from the manifest open, the only failure that
escalates to process termination is a non-ImportError exception raised
during an import attempt. -/
theorem manifest_missing_behavior (lint : LaunchOutcome) (net : Net) (fs : FileSys)
    (imp : ImportEnv) (manifest : Option (List Str)) :
    ((main lint net fs imp none).out
        = startBanner :: (check_imports lint ++ ((check_urls net fs).out ++ [depsHeader]))
      ∧ (main lint net fs imp none).exn = some fileNotFound
      ∧ (∀ p, missingLine p ∉ (main lint net fs imp none).out)
      ∧ doneBanner ∉ (main lint net fs imp none).out)
    ∧ (∀ lines, manifest = some lines →
        (main lint net fs imp manifest).exn = none
        ∨ ∃ e p, (main lint net fs imp manifest).exn = some e
            ∧ imp p = ImportOutcome.raise e) := by
  have hout : (main lint net fs imp none).out
      = startBanner :: (check_imports lint ++ ((check_urls net fs).out ++ [depsHeader])) := by
    simp [main, check_dependencies]
  refine ⟨⟨hout, rfl, ?_, ?_⟩, ?_⟩
  · intro p hp
    rw [hout] at hp
    rcases List.mem_cons.mp hp with h | h
    · have hf := congrArg fstTwo h
      rw [fstTwo_missing] at hf
      exact absurd hf (by decide)
    · rcases List.mem_append.mp h with h | h
      · rcases mem_imports_fstTwo h with hf | hf <;>
          (rw [fstTwo_missing] at hf; exact absurd hf (by decide))
      · rcases List.mem_append.mp h with h | h
        · rcases mem_urls_fstTwo h with hf | hf | hf <;>
            (rw [fstTwo_missing] at hf; exact absurd hf (by decide))
        · simp only [List.mem_singleton] at h
          have hf := congrArg fstTwo h
          rw [fstTwo_missing] at hf
          exact absurd hf (by decide)
  · rw [hout]
    intro hp
    rcases List.mem_cons.mp hp with h | h
    · exact absurd h (by decide)
    · rcases List.mem_append.mp h with h | h
      · rcases mem_imports_fstTwo h with hf | hf <;> exact absurd hf (by decide)
      · rcases List.mem_append.mp h with h | h
        · rcases mem_urls_fstTwo h with hf | hf | hf <;> exact absurd hf (by decide)
        · simp only [List.mem_singleton] at h
          exact absurd h (by decide)
  · intro lines hm
    subst hm
    cases he : (depLines imp lines).exn with
    | none =>
        left
        simp [main, check_dependencies, he]
    | some e =>
        right
        obtain ⟨p, hp⟩ := depLines_raise_src he
        exact ⟨e, p, by simp [main, check_dependencies, he], hp⟩

/-- Claim C2 witness: with a present (empty) manifest and a benign import
environment, the run does not terminate abnormally. -/
theorem manifest_missing_behavior_w :
    (main lintOk netOk [] impOkEnv (some [])).exn = none
    ∨ ∃ e p, (main lintOk netOk [] impOkEnv (some [])).exn = some e
        ∧ impOkEnv p = ImportOutcome.raise e :=
  (manifest_missing_behavior lintOk netOk [] impOkEnv (some [])).2 [] rfl

/-- Claim C4 counterexample: the manifest line `==1.0` is non-blank, yet
the dependency checker attempts no import for it and prints nothing —
contradicting the claim that every non-blank line leads to an import
attempt of the text before its first "==". -/
theorem nonblank_line_cex :
    stripL eqLine ≠ []
    ∧ (check_dependencies impOkEnv (some [eqLine])).attempts = []
    ∧ (check_dependencies impOkEnv (some [eqLine])).out = [depsHeader] :=
  ⟨by decide, by decide, by decide⟩

/-- Claim C4 amended: for every manifest line whose stripped text before
the first "==" is non-empty, the dependency checker attempts to import the
module of that name; on ImportError it prints exactly one `[MISSING]` line
and continues with the next line, and for an importable package it prints
nothing.  (Amendment: lines whose text before the first "==" is empty —
blank lines and lines beginning with "==" — are skipped, no import is
attempted for them.)  Stated for import environments raising nothing
beyond ImportError, so every line is reached. -/
theorem dep_line_policy (imp : ImportEnv) (lines : List Str)
    (hno : ∀ p e, imp p ≠ ImportOutcome.raise e) :
    (check_dependencies imp (some lines)).out
      = depsHeader :: catMap (fun l =>
          if pkgOf l = [] then []
          else match imp (pkgOf l) with
            | ImportOutcome.ok => []
            | ImportOutcome.importError => [missingLine (pkgOf l)]
            | ImportOutcome.raise _ => []) lines
    ∧ (check_dependencies imp (some lines)).attempts
      = catMap (fun l => if pkgOf l = [] then [] else [pkgOf l]) lines
    ∧ (check_dependencies imp (some lines)).exn = none := by
  have hclean : ∀ l ∈ lines, (depLine imp l).exn = none := by
    intro l _
    unfold depLine
    by_cases hp : pkgOf l = []
    · rw [if_pos hp]
    · rw [if_neg hp]
      cases himp : imp (pkgOf l) with
      | ok => rfl
      | importError => rfl
      | raise e => exact absurd himp (hno _ e)
  have hd := depLines_clean hclean
  have hfout : (fun l => (depLine imp l).out)
      = (fun l => if pkgOf l = [] then ([] : List Str)
          else match imp (pkgOf l) with
            | ImportOutcome.ok => []
            | ImportOutcome.importError => [missingLine (pkgOf l)]
            | ImportOutcome.raise _ => []) := by
    funext l
    unfold depLine
    by_cases hp : pkgOf l = []
    · rw [if_pos hp, if_pos hp]
    · rw [if_neg hp, if_neg hp]
      cases imp (pkgOf l) <;> rfl
  have hfatt : (fun l => (depLine imp l).attempts)
      = (fun l => if pkgOf l = [] then ([] : List Str) else [pkgOf l]) := by
    funext l
    unfold depLine
    by_cases hp : pkgOf l = []
    · rw [if_pos hp, if_pos hp]
    · rw [if_neg hp, if_neg hp]
      cases imp (pkgOf l) <;> rfl
  refine ⟨?_, ?_, ?_⟩
  · simp only [check_dependencies, hd]
    rw [hfout]
  · simp only [check_dependencies, hd]
    rw [hfatt]
  · simp [check_dependencies, hd]

/-- Claim C4 witness: on the manifest of the specification's example, with
`requests` importable and everything else not, the checker reports exactly
`[MISSING] not_a_real_pkg_xyz` and does not report `requests`. -/
theorem dep_line_policy_w :
    (check_dependencies impMissEnv (some [reqLine, missLine])).out
      = [depsHeader, missingLine "not_a_real_pkg_xyz".toList] := by
  have h := dep_line_policy impMissEnv [reqLine, missLine]
    (by
      intro p e
      unfold impMissEnv
      split <;> simp)
  rw [h.1]
  decide

/-- Claim C6 counterexample: a run whose manifest opens fine but whose
listed module raises a non-ImportError exception during import prints no
completion banner and does not exit with the success status — so manifest
open success alone does not guarantee the completion banner. -/
theorem completion_banner_cex :
    doneBanner ∉ (main lintOk netOk [] impRaiseEnv2 (some [evilLine2])).out
    ∧ exitCode (main lintOk netOk [] impRaiseEnv2 (some [evilLine2])) = 1 :=
  ⟨by decide, by decide⟩

/-- Claim C6 amended: the entry point runs the lint runner, the link
scanner and the dependency checker in this fixed order; it always prints
the start banner first; and whenever the manifest open succeeds and no
attempted import raises a non-ImportError exception, it prints the
completion banner last and exits with the fixed success status 0,
regardless of how many bad links or missing packages were found. -/
theorem entry_point_order (lint : LaunchOutcome) (net : Net) (fs : FileSys)
    (imp : ImportEnv) (lines : List Str) (manifest : Option (List Str))
    (hno : ∀ l ∈ lines, (depLine imp l).exn = none) :
    (main lint net fs imp (some lines)).out
      = startBanner :: (check_imports lint ++ ((check_urls net fs).out ++
          ((check_dependencies imp (some lines)).out ++ [doneBanner])))
    ∧ exitCode (main lint net fs imp (some lines)) = 0
    ∧ ((main lint net fs imp manifest).out).head? = some startBanner := by
  have he : (check_dependencies imp (some lines)).exn = none := by
    simp [check_dependencies, depLines_clean hno]
  refine ⟨?_, ?_, rfl⟩
  · simp [main, he]
  · simp [exitCode, main, he]

/-- Claim C6 witness: a run with a bad link, a timing-out link and a
missing package still ends with exit status 0. -/
theorem entry_point_order_w :
    exitCode (main lintOk netEx fsEx impMissEnv (some [reqLine, missLine])) = 0 :=
  (entry_point_order lintOk netEx fsEx impMissEnv [reqLine, missLine] none (by decide)).2.1

/-- Claim C9: only ImportError is caught around each import attempt: when
the import of a listed module raises any other exception, it propagates
uncaught and terminates the run — the remaining manifest lines are not
processed (no further import attempt, no further output) and the
completion banner is never printed. -/
theorem import_raise_propagates (lint : LaunchOutcome) (net : Net) (fs : FileSys)
    (imp : ImportEnv) (pre post : List Str) (l e : Str)
    (hpre : ∀ l' ∈ pre, (depLine imp l').exn = none)
    (hpkg : pkgOf l ≠ [])
    (hraise : imp (pkgOf l) = ImportOutcome.raise e) :
    (main lint net fs imp (some (pre ++ l :: post))).exn = some e
    ∧ (main lint net fs imp (some (pre ++ l :: post))).out
        = startBanner :: (check_imports lint ++ ((check_urls net fs).out ++
            (depsHeader :: catMap (fun l' => (depLine imp l').out) pre)))
    ∧ (check_dependencies imp (some (pre ++ l :: post))).attempts
        = catMap (fun l' => (depLine imp l').attempts) pre ++ [pkgOf l]
    ∧ doneBanner ∉ (main lint net fs imp (some (pre ++ l :: post))).out := by
  have hdl : depLine imp l = ⟨[], [pkgOf l], some e⟩ := by
    unfold depLine
    rw [if_neg hpkg, hraise]
  have hstop := depLines_stop post pre hpre (by rw [hdl])
  have hout : (main lint net fs imp (some (pre ++ l :: post))).out
      = startBanner :: (check_imports lint ++ ((check_urls net fs).out ++
          (depsHeader :: catMap (fun l' => (depLine imp l').out) pre))) := by
    simp [main, check_dependencies, hstop, hdl]
  refine ⟨?_, hout, ?_, ?_⟩
  · simp [main, check_dependencies, hstop]
  · simp [check_dependencies, hstop, hdl]
  · rw [hout]
    intro hmem
    rcases List.mem_cons.mp hmem with h | h
    · exact absurd h (by decide)
    · rcases List.mem_append.mp h with h | h
      · rcases mem_imports_fstTwo h with hf | hf <;> exact absurd hf (by decide)
      · rcases List.mem_append.mp h with h | h
        · rcases mem_urls_fstTwo h with hf | hf | hf <;> exact absurd hf (by decide)
        · rcases List.mem_cons.mp h with h | h
          · exact absurd h (by decide)
          · obtain ⟨a, _, ha⟩ := mem_catMap.mp h
            obtain ⟨p, hp⟩ := mem_depLine_out ha
            have hf := congrArg fstTwo hp
            rw [fstTwo_missing] at hf
            exact absurd hf (by decide)

/-- Claim C9 witness: with `requests` importable and `otherpkg` raising a
RuntimeError, the run over the manifest `requests, otherpkg, rest`
terminates with that RuntimeError. -/
theorem import_raise_propagates_w :
    (main lintOk netOk [] impRaiseEnv2 (some [reqLine, evilLine2, missLine])).exn
      = some "RuntimeError: bad".toList :=
  (import_raise_propagates lintOk netOk [] impRaiseEnv2 [reqLine] [missLine]
      evilLine2 "RuntimeError: bad".toList (by decide) (by decide) (by decide)).1

end GrantAI
